import Mathlib

/-!
Verification development for the CPH5 typed HDF5 access layer.

Shallow embedding of the parts of the library that the checked properties
concern, translated from the C++ headers:

  * `CPH5IOFacility` (cph5utilities.h): hyperslab selection / IO facility.
  * `CPH5CompType` serialization machinery (cph5comptype.h):
    `copyAllAndMove` / `latchAllAndMove`, `getCompType`, `getTotalMemorySize`,
    `CPH5CompMemberArrayCommon` element write, array-of-records `operator[]`.
  * `CPH5Dataset` (cph5dataset.h): `extendIR`, `extendOnceAndWrite`,
    whole-dataset `operator=`.
  * `CPH5Dynamic::recurseComptype` (cph5dynamic.h): schema reflection of a
    stored compound type.

The storage engine (HDF5) is treated as a black box: engine calls appear as
explicit events carrying the region descriptor and element count that the
code hands to the engine.
-/

namespace CPH5

/-- Conversion of a C `int` value to `hsize_t` (unsigned 64-bit): the usual
integral conversion, i.e. reduction modulo 2^64 of the two's-complement
value. -/
def intToHsize (i : Int) : Nat := (i % (2 ^ 64 : Int)).toNat

/-- Conversion of an `hsize_t` value to a 32-bit C `int`, as performed by the
narrowing initializations in the code (e.g. `getDims` / `getMaxDims`
returning `std::vector<int>`): two's-complement wrap-around. -/
def hsizeToInt (h : Nat) : Int :=
  let r : Nat := h % 2 ^ 32
  if r < 2 ^ 31 then (r : Int) else (r : Int) - 2 ^ 32

theorem intToHsize_of_small {i : Int} (h0 : 0 ≤ i) (h1 : i < 2 ^ 63) :
    intToHsize i = i.toNat := by
  unfold intToHsize
  rw [Int.emod_eq_of_lt h0 (by omega)]

theorem hsizeToInt_of_small {h : Nat} (h1 : h < 2 ^ 31) :
    hsizeToInt h = (h : Int) := by
  unfold hsizeToInt
  rw [Nat.mod_eq_of_lt (by omega)]
  rw [if_pos h1]

/-! ## Selection/IO facility (`CPH5IOFacility`, cph5utilities.h)

The facility stores the dataset handle pointer, the default type, the
dimension count (`-1` until `init`), the per-dimension extents pushed in
`init`, and the fixed indices pushed by `addIndex`.  `setupSpaces` turns
them into a hyperslab selection; we record the engine-visible region
descriptor (offset and extent per dimension of the file space) and the
selected point counts of the file space and the memory space.  A freshly
default-constructed `H5::DataSpace` is a scalar dataspace, whose full
selection holds exactly one point, hence the initial `1` counts. -/

/-- The region descriptor handed to `H5::DataSpace::selectHyperslab`:
`offsets[i]` and `extents[i]` for each of the `numDims` dimensions of the
file space.  (In `setupSpaces` the C++ fills local arrays of size
`CPH_5_MAX_DIMS`; only the first `numDims` entries are read by the engine,
and those are the ones modeled here.  Entries past the fixed indices are
the memset zeroes.) -/
structure Region where
  offsets : List Int
  extents : List Nat
deriving Repr, DecidableEq

/-- Engine-level calls issued by the facility: a read or write moving
`npoints` elements of the selection described by `region` (`none` for the
scalar, rank-0 case that uses no hyperslab). -/
inductive IOEvent where
  | readEv (region : Option Region) (npoints : Nat)
  | writeEv (region : Option Region) (npoints : Nat)
deriving Repr, DecidableEq

/-- State of a `CPH5IOFacility`.  `mpDataSet = none` models a null
`H5::DataSet*`; `numDims = -1` means uninitialized; `mMaxDims` holds the
extent of each dimension as the `int` values stored by `init`;
`mFilespaceN` / `mMemspaceN` are the selected point counts of the two
member dataspaces; `mFileRegion` is the hyperslab last selected on the
file space (`none`: no hyperslab, scalar selection). -/
structure CPH5IOFacility where
  mpDataSet : Option Nat
  typeSize : Nat
  numDims : Int
  mMaxDims : List Int
  mIndices : List Int
  mFilespaceN : Nat
  mMemspaceN : Nat
  mFileRegion : Option Region
deriving Repr, DecidableEq

namespace CPH5IOFacility

/-- Default constructor: null dataset pointer, `numDims = -1`.  The two
dataspace members are default-constructed scalar dataspaces (one selected
point each); the default `H5::DataType` has size 0. -/
def new : CPH5IOFacility :=
  { mpDataSet := none, typeSize := 0, numDims := -1, mMaxDims := []
    mIndices := [], mFilespaceN := 1, mMemspaceN := 1, mFileRegion := none }

/-- `init(pDataSet, type, nDims, maxDims)`: binds the handle, stores the
type and dimension count, clears `mMaxDims` and `mIndices`, then pushes
`maxDims[0..nDims)`.  `maxDims` holds `hsize_t` values; the push into the
`std::vector<int>` member narrows each to `int`. -/
def init (f : CPH5IOFacility) (pDataSet : Option Nat) (typeSize : Nat)
    (nDims : Nat) (maxDims : List Nat) : CPH5IOFacility :=
  { f with mpDataSet := pDataSet, typeSize := typeSize, numDims := nDims
           mMaxDims := (maxDims.take nDims).map hsizeToInt, mIndices := [] }

/-- `addIndex(ind)`: returns untouched if uninitialized, otherwise pushes
the index.  The subsequent `mIndices.size() > numDims` check has an empty
body (a comment only): when too many indices are supplied nothing is
reported and the extra index stays in the list. -/
def addIndex (f : CPH5IOFacility) (ind : Int) : CPH5IOFacility :=
  if f.numDims = -1 then f
  else { f with mIndices := f.mIndices ++ [ind] }

/-- The offsets array computed by `setupSpaces`: `mIndices[i]` for
`i < mIndices.size()`, the memset zero otherwise. -/
def spaceOffsets (f : CPH5IOFacility) : List Int :=
  (List.range f.numDims.toNat).map fun i =>
    if i < f.mIndices.length then f.mIndices.getD i 0 else 0

/-- The extents array computed by `setupSpaces`: `1` for dimensions with a
fixed index, `mMaxDims[i]` (an `int` assigned to `hsize_t`) otherwise. -/
def spaceExtents (f : CPH5IOFacility) : List Nat :=
  (List.range f.numDims.toNat).map fun i =>
    if i < f.mIndices.length then 1 else intToHsize (f.mMaxDims.getD i 0)

/-- `setupSpaces()`: no-op when uninitialized or when the dataset pointer
is null; otherwise selects the hyperslab `(offsets, extents)` on the file
space and builds a simple memory space of the same extents.  For a rank-0
dataset no hyperslab is selected: the file space is the dataset's scalar
space (one point selected) and the memory space a default-constructed
scalar dataspace (one point). -/
def setupSpaces (f : CPH5IOFacility) : CPH5IOFacility :=
  if f.numDims = -1 then f
  else
    match f.mpDataSet with
    | none => f
    | some _ =>
      if f.numDims = 0 then
        { f with mFilespaceN := 1, mMemspaceN := 1, mFileRegion := none }
      else
        let ext := f.spaceExtents
        { f with mFilespaceN := ext.prod, mMemspaceN := ext.prod
                 mFileRegion := some ⟨f.spaceOffsets, ext⟩ }

/-- The offsets array computed by `setupSpacesOffset(offset)`: like
`spaceOffsets` but with `offsets[mIndices.size()] = offset`. -/
def spaceOffsetsOff (f : CPH5IOFacility) (offset : Int) : List Int :=
  (List.range f.numDims.toNat).map fun i =>
    if i < f.mIndices.length then f.mIndices.getD i 0
    else if i = f.mIndices.length then offset
    else 0

/-- The extents array computed by `setupSpacesOffset(offset)`: `1` for
fixed dimensions, `mMaxDims[i] - offset` for the first un-fixed dimension,
`mMaxDims[i]` for the rest. -/
def spaceExtentsOff (f : CPH5IOFacility) (offset : Int) : List Nat :=
  (List.range f.numDims.toNat).map fun i =>
    if i < f.mIndices.length then 1
    else if i = f.mIndices.length then intToHsize (f.mMaxDims.getD i 0 - offset)
    else intToHsize (f.mMaxDims.getD i 0)

/-- `setupSpacesOffset(offset)`: identical to `setupSpaces` except for the
offset adjustment on the first un-fixed dimension. -/
def setupSpacesOffset (f : CPH5IOFacility) (offset : Int) : CPH5IOFacility :=
  if f.numDims = -1 then f
  else
    match f.mpDataSet with
    | none => f
    | some _ =>
      if f.numDims = 0 then
        { f with mFilespaceN := 1, mMemspaceN := 1, mFileRegion := none }
      else
        let ext := f.spaceExtentsOff offset
        { f with mFilespaceN := ext.prod, mMemspaceN := ext.prod
                 mFileRegion := some ⟨f.spaceOffsetsOff offset, ext⟩ }

/-- `write(src)`: returns immediately when the dataset pointer is null;
otherwise `setupSpaces` then `mpDataSet->write(...)` with the two
dataspaces. -/
def write (f : CPH5IOFacility) : CPH5IOFacility × List IOEvent :=
  match f.mpDataSet with
  | none => (f, [])
  | some _ =>
    let f' := f.setupSpaces
    (f', [IOEvent.writeEv f'.mFileRegion f'.mFilespaceN])

/-- `read(dst)`: returns immediately when the dataset pointer is null;
otherwise `setupSpaces` then `mpDataSet->read(...)`. -/
def read (f : CPH5IOFacility) : CPH5IOFacility × List IOEvent :=
  match f.mpDataSet with
  | none => (f, [])
  | some _ =>
    let f' := f.setupSpaces
    (f', [IOEvent.readEv f'.mFileRegion f'.mFilespaceN])

/-- `writeWithOffset(offset, src)`: returns immediately when the dataset
pointer is null; otherwise `setupSpacesOffset(offset)` then the write. -/
def writeWithOffset (f : CPH5IOFacility) (offset : Int) :
    CPH5IOFacility × List IOEvent :=
  match f.mpDataSet with
  | none => (f, [])
  | some _ =>
    let f' := f.setupSpacesOffset offset
    (f', [IOEvent.writeEv f'.mFileRegion f'.mFilespaceN])

/-- `getNumLowerElements()`: `setupSpaces` then the selected point count of
the file space. -/
def getNumLowerElements (f : CPH5IOFacility) : CPH5IOFacility × Nat :=
  let f' := f.setupSpaces
  (f', f'.mFilespaceN)

/-- `getSizeLowerElements()`: `setupSpaces` then the selected point count
of the memory space times `mType.getSize()`. -/
def getSizeLowerElements (f : CPH5IOFacility) : CPH5IOFacility × Nat :=
  let f' := f.setupSpaces
  (f', f'.mMemspaceN * f.typeSize)

end CPH5IOFacility

theorem intToHsize_hsizeToInt {d : Nat} (h : d < 2 ^ 31) :
    intToHsize (hsizeToInt d) = d := by
  rw [hsizeToInt_of_small h, intToHsize_of_small (by omega) (by exact_mod_cast lt_trans h (by norm_num))]
  exact Int.toNat_natCast d

/-- The extent product computed by `setupSpaces`: fixed dimensions
contribute `1`, the remaining dimensions their stored extent. -/
theorem prod_range_if_extents (g : Int → Nat) :
    ∀ (l : List Int) (k : Nat),
      ((List.range l.length).map
        (fun i => if i < k then 1 else g (l.getD i 0))).prod
        = ((l.drop k).map g).prod := by
  intro l
  induction l with
  | nil => intro k; simp
  | cons a l ih =>
    intro k
    rw [List.length_cons, List.range_succ_eq_map, List.map_cons, List.map_map,
      List.prod_cons]
    cases k with
    | zero =>
      have hmap :
          ((List.range l.length).map
            ((fun i => if i < 0 then 1 else g ((a :: l).getD i 0)) ∘ Nat.succ))
            = (List.range l.length).map
              (fun i => if i < 0 then 1 else g (l.getD i 0)) := by
        refine List.map_congr_left fun i _ => ?_
        simp [List.getD_cons_succ]
      rw [hmap, ih 0]
      simp [List.getD_cons_zero]
    | succ k =>
      have hmap :
          ((List.range l.length).map
            ((fun i => if i < k + 1 then 1 else g ((a :: l).getD i 0)) ∘ Nat.succ))
            = (List.range l.length).map
              (fun i => if i < k then 1 else g (l.getD i 0)) := by
        refine List.map_congr_left fun i _ => ?_
        simp only [Function.comp_apply, List.getD_cons_succ]
        by_cases h : i < k
        · rw [if_pos h, if_pos (by omega)]
        · rw [if_neg h, if_neg (by omega)]
      rw [hmap, ih k]
      simp [List.drop_succ_cons]

theorem getNumLowerElements_def (f : CPH5IOFacility) :
    f.getNumLowerElements = (f.setupSpaces, f.setupSpaces.mFilespaceN) := rfl

theorem getSizeLowerElements_def (f : CPH5IOFacility) :
    f.getSizeLowerElements
      = (f.setupSpaces, f.setupSpaces.mMemspaceN * f.typeSize) := rfl

theorem read_none (f : CPH5IOFacility) (h : f.mpDataSet = none) :
    f.read = (f, []) := by
  unfold CPH5IOFacility.read
  rw [h]

theorem read_some (f : CPH5IOFacility) (d : Nat) (h : f.mpDataSet = some d) :
    f.read = (f.setupSpaces,
      [IOEvent.readEv f.setupSpaces.mFileRegion f.setupSpaces.mFilespaceN]) := by
  unfold CPH5IOFacility.read
  rw [h]

theorem write_none (f : CPH5IOFacility) (h : f.mpDataSet = none) :
    f.write = (f, []) := by
  unfold CPH5IOFacility.write
  rw [h]

theorem write_some (f : CPH5IOFacility) (d : Nat) (h : f.mpDataSet = some d) :
    f.write = (f.setupSpaces,
      [IOEvent.writeEv f.setupSpaces.mFileRegion f.setupSpaces.mFilespaceN]) := by
  unfold CPH5IOFacility.write
  rw [h]

theorem setupSpaces_none (f : CPH5IOFacility) (h : f.mpDataSet = none) :
    f.setupSpaces = f := by
  unfold CPH5IOFacility.setupSpaces
  by_cases h1 : f.numDims = -1
  · rw [if_pos h1]
  · rw [if_neg h1, h]

theorem setupSpaces_hyperslab (f : CPH5IOFacility) (d : Nat)
    (hd : f.mpDataSet = some d) (h1 : f.numDims ≠ -1) (h0 : f.numDims ≠ 0) :
    f.setupSpaces
      = { f with mFilespaceN := f.spaceExtents.prod
                 mMemspaceN := f.spaceExtents.prod
                 mFileRegion := some ⟨f.spaceOffsets, f.spaceExtents⟩ } := by
  unfold CPH5IOFacility.setupSpaces
  rw [if_neg h1, hd]
  simp only
  rw [if_neg h0]

theorem setupSpaces_scalar (f : CPH5IOFacility) (d : Nat)
    (hd : f.mpDataSet = some d) (h1 : f.numDims ≠ -1) (h0 : f.numDims = 0) :
    f.setupSpaces
      = { f with mFilespaceN := 1, mMemspaceN := 1, mFileRegion := none } := by
  unfold CPH5IOFacility.setupSpaces
  rw [if_neg h1, hd]
  simp only
  rw [if_pos h0]

/-- **C4.** For a facility initialized (and bound) with dimension extents
`ds` of length `N` and holding `k ≤ N` fixed indices, the number of
selected elements returned by `getNumLowerElements` is the product of the
un-fixed extents `ds[k] * … * ds[N-1]` (`1` when `k = N`), and
`getSizeLowerElements` is that element count times the element type's
size. -/
theorem c4_selection_counts (hdl ts n k fsN msN : Nat) (reg : Option Region)
    (ds : List Nat) (inds : List Int)
    (hds : ds.length = n) (hsmall : ∀ x ∈ ds, x < 2 ^ 31)
    (hinds : inds.length = k) (hk : k ≤ n) :
    ((⟨some hdl, ts, (n : Int), ds.map hsizeToInt, inds, fsN, msN, reg⟩ :
        CPH5IOFacility).getNumLowerElements).2 = ((ds.drop k).prod)
    ∧ ((⟨some hdl, ts, (n : Int), ds.map hsizeToInt, inds, fsN, msN, reg⟩ :
        CPH5IOFacility).getSizeLowerElements).2 = ((ds.drop k).prod) * ts := by
  have hprod : ((⟨some hdl, ts, (n : Int), ds.map hsizeToInt, inds, fsN, msN, reg⟩ :
      CPH5IOFacility).spaceExtents).prod = (ds.drop k).prod := by
    unfold CPH5IOFacility.spaceExtents
    have hlen : (ds.map hsizeToInt).length = n := by simp [hds]
    show ((List.range ((n : Int)).toNat).map fun i =>
        if i < inds.length then 1
        else intToHsize ((ds.map hsizeToInt).getD i 0)).prod = (ds.drop k).prod
    rw [Int.toNat_natCast, ← hlen, hinds,
      prod_range_if_extents intToHsize (ds.map hsizeToInt) k,
      ← List.map_drop, List.map_map]
    have hid : (List.drop k ds).map (intToHsize ∘ hsizeToInt) = List.drop k ds := by
      have h2 : (List.drop k ds).map (intToHsize ∘ hsizeToInt)
          = (List.drop k ds).map id :=
        List.map_congr_left fun d hd =>
          intToHsize_hsizeToInt (hsmall d (List.mem_of_mem_drop hd))
      rw [h2, List.map_id]
    rw [hid]
  by_cases hn : n = 0
  · subst hn
    have hk0 : k = 0 := Nat.le_zero.mp hk
    subst hk0
    rw [getNumLowerElements_def, getSizeLowerElements_def,
      setupSpaces_scalar _ hdl rfl (show ((0 : Nat) : Int) ≠ -1 by decide)
        (show ((0 : Nat) : Int) = 0 by decide)]
    have hds0 : ds = [] := List.eq_nil_of_length_eq_zero hds
    subst hds0
    exact ⟨rfl, by simp⟩
  · have h1 : ((n : Int)) ≠ -1 := by omega
    have h0 : ((n : Int)) ≠ 0 := by omega
    rw [getNumLowerElements_def, getSizeLowerElements_def,
      setupSpaces_hyperslab _ hdl rfl h1 h0]
    exact ⟨hprod, congrArg (· * ts) hprod⟩

/-- Witness for C4 at a concrete facility: rank 3, extents `[2, 3, 4]`,
two fixed indices. -/
theorem c4_selection_counts_witness :
    ((⟨some 0, 8, (3 : Int), ([2, 3, 4] : List Nat).map hsizeToInt, [1, 0], 1, 1, none⟩ :
        CPH5IOFacility).getNumLowerElements).2 = 4
    ∧ ((⟨some 0, 8, (3 : Int), ([2, 3, 4] : List Nat).map hsizeToInt, [1, 0], 1, 1, none⟩ :
        CPH5IOFacility).getSizeLowerElements).2 = 32 :=
  c4_selection_counts 0 8 3 2 1 1 none [2, 3, 4] [1, 0] rfl (by decide) rfl (by omega)

/-- **C3.** On a facility with no dataset handle bound, `read`, `write`
and `writeWithOffset` return silently: no engine call is made and the
facility state is unchanged.  (This is the deliberate "not yet bound"
state: the functions return before `setupSpaces`.) -/
theorem c3_unbound_silent_noop (f : CPH5IOFacility) (hf : f.mpDataSet = none)
    (off : Int) :
    f.read = (f, []) ∧ f.write = (f, []) ∧ f.writeWithOffset off = (f, []) := by
  unfold CPH5IOFacility.read CPH5IOFacility.write CPH5IOFacility.writeWithOffset
  rw [hf]
  exact ⟨rfl, rfl, rfl⟩

/-- Witness for C3: a default-constructed facility is unbound, and its
`read`/`write`/`writeWithOffset` are silent no-ops. -/
theorem c3_unbound_silent_noop_witness :
    CPH5IOFacility.new.mpDataSet = none
    ∧ CPH5IOFacility.new.read = (CPH5IOFacility.new, [])
    ∧ CPH5IOFacility.new.write = (CPH5IOFacility.new, [])
    ∧ CPH5IOFacility.new.writeWithOffset 3 = (CPH5IOFacility.new, []) :=
  ⟨rfl, (c3_unbound_silent_noop CPH5IOFacility.new rfl 3).1,
    (c3_unbound_silent_noop CPH5IOFacility.new rfl 3).2.1,
    (c3_unbound_silent_noop CPH5IOFacility.new rfl 3).2.2⟩

/-- **C1 (counterexample).** On a facility for a rank-2 dataset with both
indices already fixed, `addIndex` is *not* a no-op: the extra index is
retained in the index list (the `mIndices.size() > numDims` check has an
empty body, so nothing is reported and nothing is undone). -/
theorem c1_counterexample :
    ((CPH5IOFacility.new.init (some 0) 4 2 [3, 4]).addIndex 1
        |>.addIndex 2 |>.addIndex 5).mIndices
      ≠ ((CPH5IOFacility.new.init (some 0) 4 2 [3, 4]).addIndex 1
        |>.addIndex 2).mIndices := by
  decide

/-- **C1 (amended).** Calling `addIndex` on a facility whose `N = numDims`
indices are all fixed appends the extra index to the list without any
report; the first `N` fixed indices are unchanged, and a subsequent `read`
or `write` issues exactly the same engine call (same region, same element
count) as it would have without the extra index. -/
theorem c1_amended_overflow_append (f : CPH5IOFacility) (x : Int)
    (hn : 0 ≤ f.numDims) (hfull : f.mIndices.length = f.numDims.toNat) :
    (f.addIndex x).mIndices = f.mIndices ++ [x]
    ∧ ((f.addIndex x).mIndices).take f.numDims.toNat = f.mIndices
    ∧ ((f.addIndex x).read).2 = (f.read).2
    ∧ ((f.addIndex x).write).2 = (f.write).2 := by
  have hne : ¬ f.numDims = -1 := by omega
  have hadd : f.addIndex x = { f with mIndices := f.mIndices ++ [x] } := by
    unfold CPH5IOFacility.addIndex
    rw [if_neg hne]
  have hoff : ({ f with mIndices := f.mIndices ++ [x] } :
      CPH5IOFacility).spaceOffsets = f.spaceOffsets := by
    unfold CPH5IOFacility.spaceOffsets
    refine List.map_congr_left fun i hi => ?_
    have hilt : i < f.numDims.toNat := List.mem_range.mp hi
    have hik : i < f.mIndices.length := by omega
    have hik' : i < (f.mIndices ++ [x]).length := by
      simp only [List.length_append, List.length_cons, List.length_nil]; omega
    simp only [hik, if_pos, hik']
    rw [List.getD_eq_getElem?_getD, List.getD_eq_getElem?_getD,
      List.getElem?_append_left hik]
  have hext : ({ f with mIndices := f.mIndices ++ [x] } :
      CPH5IOFacility).spaceExtents = f.spaceExtents := by
    unfold CPH5IOFacility.spaceExtents
    refine List.map_congr_left fun i hi => ?_
    have hilt : i < f.numDims.toNat := List.mem_range.mp hi
    have hik : i < f.mIndices.length := by omega
    have hik' : i < (f.mIndices ++ [x]).length := by
      simp only [List.length_append, List.length_cons, List.length_nil]; omega
    simp only [hik, if_pos, hik']
  have hregN :
      ({ f with mIndices := f.mIndices ++ [x] } :
          CPH5IOFacility).setupSpaces.mFileRegion = f.setupSpaces.mFileRegion
      ∧ ({ f with mIndices := f.mIndices ++ [x] } :
          CPH5IOFacility).setupSpaces.mFilespaceN = f.setupSpaces.mFilespaceN := by
    by_cases hds : f.mpDataSet = none
    · have hds' : ({ f with mIndices := f.mIndices ++ [x] } :
          CPH5IOFacility).mpDataSet = none := hds
      rw [setupSpaces_none _ hds', setupSpaces_none f hds]
      exact ⟨rfl, rfl⟩
    · obtain ⟨d, hd⟩ := Option.ne_none_iff_exists'.mp hds
      have hd' : ({ f with mIndices := f.mIndices ++ [x] } :
          CPH5IOFacility).mpDataSet = some d := hd
      by_cases h0 : f.numDims = 0
      · rw [setupSpaces_scalar f d hd hne h0,
          setupSpaces_scalar _ d hd' hne h0]
        exact ⟨rfl, rfl⟩
      · rw [setupSpaces_hyperslab f d hd hne h0,
          setupSpaces_hyperslab _ d hd' hne h0]
        rw [show ({ f with mIndices := f.mIndices ++ [x] } :
              CPH5IOFacility).spaceExtents = f.spaceExtents from hext,
          show ({ f with mIndices := f.mIndices ++ [x] } :
              CPH5IOFacility).spaceOffsets = f.spaceOffsets from hoff]
        exact ⟨rfl, rfl⟩
  refine ⟨by rw [hadd], ?_, ?_, ?_⟩
  · rw [hadd]
    show (f.mIndices ++ [x]).take f.numDims.toNat = f.mIndices
    rw [← hfull]
    exact List.take_left f.mIndices [x]
  · rw [hadd]
    by_cases hds : f.mpDataSet = none
    · have hds' : ({ f with mIndices := f.mIndices ++ [x] } :
          CPH5IOFacility).mpDataSet = none := hds
      rw [read_none _ hds', read_none f hds]
    · obtain ⟨d, hd⟩ := Option.ne_none_iff_exists'.mp hds
      have hd' : ({ f with mIndices := f.mIndices ++ [x] } :
          CPH5IOFacility).mpDataSet = some d := hd
      rw [read_some _ d hd', read_some f d hd]
      show [IOEvent.readEv _ _] = [IOEvent.readEv _ _]
      rw [hregN.1, hregN.2]
  · rw [hadd]
    by_cases hds : f.mpDataSet = none
    · have hds' : ({ f with mIndices := f.mIndices ++ [x] } :
          CPH5IOFacility).mpDataSet = none := hds
      rw [write_none _ hds', write_none f hds]
    · obtain ⟨d, hd⟩ := Option.ne_none_iff_exists'.mp hds
      have hd' : ({ f with mIndices := f.mIndices ++ [x] } :
          CPH5IOFacility).mpDataSet = some d := hd
      rw [write_some _ d hd', write_some f d hd]
      show [IOEvent.writeEv _ _] = [IOEvent.writeEv _ _]
      rw [hregN.1, hregN.2]

/-- Witness for the amended C1 on a concrete rank-2 facility with both
indices fixed. -/
theorem c1_amended_overflow_append_witness :
    (0 : Int) ≤ ((CPH5IOFacility.new.init (some 0) 4 2 [3, 4]).addIndex 1
        |>.addIndex 2).numDims
    ∧ (((CPH5IOFacility.new.init (some 0) 4 2 [3, 4]).addIndex 1
        |>.addIndex 2).addIndex 5).mIndices = [1, 2] ++ [5] := by
  refine ⟨by decide, ?_⟩
  exact (c1_amended_overflow_append _ 5 (by decide) (by decide)).1

/-! ## Compound record serialization (`CPH5CompType`, cph5comptype.h)

In-memory state of a compound type and its members, as latched in the
member objects' local storage.  A member is either

  * a primitive `CPH5CompMember<T>` holding `sizeof(T)` bytes (`mT`),
  * a nested record (`CPH5CompMemberBaseThru<T, IS_DERIVED>`, which *is*
    a `CPH5CompType` with its own ordered child list),
  * a fixed array of primitives (`CPH5CompMemberArrayCommon<T, inh>`,
    non-derived: `N` elements of `sizeof(T)` bytes in `pMT`), or
  * a fixed array of records (`CPH5CompMemberArrayCommon<T, IS_DERIVED>`:
    `N` record objects `pmT[0..N)`).

To keep all recursions structural, member/record lists are spelled with
the `mnil`/`mcons` constructors of the same inductive; the `wf` checker
below pins down which node plays which role.  `copyAllAndMove` serializes
the children in declaration order; `latchAllAndMove` deserializes in the
same order, each member consuming exactly its own size.  Array-of-
primitive members serialize from their latched local buffer (the
`!mReadDone` re-read in `copyAndMove` does not fire for an in-memory
value that has been latched). -/

/-- A compound-type value tree.  `compRec ms` is a `CPH5CompType` whose
`mChildren` list is `ms` (an `mcons`/`mnil` chain, in declaration order);
`arrComp rs` is an array-of-records member whose `pmT` elements are `rs`. -/
inductive CompNode where
  | prim (bytes : List Nat)
  | arrPrim (esz : Nat) (elems : List (List Nat))
  | compRec (members : CompNode)
  | arrComp (recs : CompNode)
  | mnil
  | mcons (m : CompNode) (tl : CompNode)
deriving Repr, DecidableEq

namespace CompNode

/-- Well-formedness, indexed by the role a node plays: `true` for a
member or record node, `false` for an `mnil`/`mcons` child-list spine.
Every element of an `arrPrim` buffer must have exactly the element size
`sizeof(T)` many bytes.  (The C++ guarantees all of this by
construction.) -/
def wfAt : Bool → CompNode → Bool
  | true, .prim _ => true
  | true, .arrPrim esz elems => elems.all fun e => e.length = esz
  | true, .compRec ms => wfAt false ms
  | true, .arrComp rs => wfAt false rs
  | true, .mnil => false
  | true, .mcons _ _ => false
  | false, .mnil => true
  | false, .mcons m tl => wfAt true m && wfAt false tl
  | false, _ => false

/-- `copyAndMove` / `copyAllAndMove`: write the value's bytes into the
flat buffer in declaration order, advancing the cursor by the member's
own size each time.  A primitive member contributes its `sizeof(T)`
bytes (`memcpy(ptr, &mT, sizeof(T))`); an array-of-primitive member its
`sizeof(T)*N` block; a nested record and an array-of-records recurse
member-by-member and element-by-element. -/
def ser : CompNode → List Nat
  | .prim bytes => bytes
  | .arrPrim _ elems => elems.flatten
  | .compRec ms => ser ms
  | .arrComp rs => ser rs
  | .mnil => []
  | .mcons m tl => ser m ++ ser tl

/-- A freshly constructed record of the same type: primitive members hold
`sizeof(T)` zero bytes, array members `N` zeroed elements (the
constructors `memset` / zero-initialize the local buffers), and the
structure (member order, element counts, sizes) is that of the type. -/
def freshOf : CompNode → CompNode
  | .prim bytes => .prim (List.replicate bytes.length 0)
  | .arrPrim esz elems => .arrPrim esz (List.replicate elems.length (List.replicate esz 0))
  | .compRec ms => .compRec (freshOf ms)
  | .arrComp rs => .arrComp (freshOf rs)
  | .mnil => .mnil
  | .mcons m tl => .mcons (freshOf m) (freshOf tl)

/-- Split the next `n` chunks of `esz` bytes off a buffer (the shape in
which an `arrPrim` block is stored element-wise). -/
def chunks (esz : Nat) : Nat → List Nat → List (List Nat)
  | 0, _ => []
  | n + 1, buf => buf.take esz :: chunks esz n (buf.drop esz)

/-- `latchAndMove` / `latchAllAndMove` on a target value (the receiving
record): each member overwrites its local storage with exactly its own
size's worth of bytes from the buffer and advances the cursor; nested
records and record arrays recurse in declaration order.  Returns the
updated value and the remaining buffer. -/
def latch : CompNode → List Nat → CompNode × List Nat
  | .prim bytes, buf => (.prim (buf.take bytes.length), buf.drop bytes.length)
  | .arrPrim esz elems, buf =>
      (.arrPrim esz (chunks esz elems.length buf), buf.drop (esz * elems.length))
  | .compRec ms, buf =>
      let r := latch ms buf
      (.compRec r.1, r.2)
  | .arrComp rs, buf =>
      let r := latch rs buf
      (.arrComp r.1, r.2)
  | .mnil, buf => (.mnil, buf)
  | .mcons m tl, buf =>
      let r := latch m buf
      let r' := latch tl r.2
      (.mcons r.1 r'.1, r'.2)

theorem chunks_flatten (esz : Nat) (elems : List (List Nat)) (rest : List Nat)
    (h : ∀ e ∈ elems, e.length = esz) :
    chunks esz elems.length (elems.flatten ++ rest) = elems
    ∧ (elems.flatten ++ rest).drop (esz * elems.length) = rest := by
  induction elems with
  | nil => simp [chunks]
  | cons e elems ih =>
    have he : e.length = esz := h e (by simp)
    have hrec := ih fun e' he' => h e' (List.mem_cons_of_mem _ he')
    constructor
    · simp only [List.length_cons, List.flatten_cons, List.append_assoc, chunks]
      rw [List.take_left' he, List.drop_left' he, hrec.1]
    · simp only [List.length_cons, List.flatten_cons, List.append_assoc]
      have hmul : esz * (elems.length + 1) = esz + esz * elems.length := by ring
      rw [hmul, ← List.drop_drop, List.drop_left' he]
      exact hrec.2

/-- Round-trip of `copyAllAndMove` / `latchAllAndMove` at either role:
deserializing a serialized value into a fresh value of the same type
reproduces the value and consumes exactly the serialized bytes. -/
theorem latch_freshOf_ser (v : CompNode) :
    ∀ (role : Bool) (rest : List Nat), wfAt role v = true →
      latch (freshOf v) (ser v ++ rest) = (v, rest) := by
  induction v with
  | prim bytes =>
    intro role rest _
    simp only [freshOf, ser, latch, List.length_replicate]
    rw [List.take_left, List.drop_left]
  | arrPrim esz elems =>
    intro role rest hwf
    cases role with
    | false => simp [wfAt] at hwf
    | true =>
      simp only [wfAt, List.all_eq_true, decide_eq_true_eq] at hwf
      simp only [freshOf, ser, latch, List.length_replicate]
      rw [(chunks_flatten esz elems rest hwf).1,
        (chunks_flatten esz elems rest hwf).2]
  | compRec ms ih =>
    intro role rest hwf
    cases role with
    | false => simp [wfAt] at hwf
    | true =>
      simp only [wfAt] at hwf
      simp only [freshOf, ser, latch]
      rw [ih false rest hwf]
  | arrComp rs ih =>
    intro role rest hwf
    cases role with
    | false => simp [wfAt] at hwf
    | true =>
      simp only [wfAt] at hwf
      simp only [freshOf, ser, latch]
      rw [ih false rest hwf]
  | mnil =>
    intro role rest hwf
    simp only [freshOf, ser, latch, List.nil_append]
  | mcons m tl ihm ihtl =>
    intro role rest hwf
    cases role with
    | true => simp [wfAt] at hwf
    | false =>
      simp only [wfAt, Bool.and_eq_true] at hwf
      simp only [freshOf, ser, latch]
      rw [List.append_assoc, ihm true (ser tl ++ rest) hwf.1]
      simp only
      rw [ihtl false rest hwf.2]

/-- **C2.** For every record type built from supported members
(primitives, nested records, fixed arrays of either) and every in-memory
value of that record, serializing member-by-member in declaration order
(`copyAllAndMove`) into a flat buffer and deserializing that buffer
(`latchAllAndMove`) into a fresh record of the same type yields a record
whose member values all equal the original's (and consumes exactly the
serialized bytes). -/
theorem c2_serialize_roundtrip (ms : CompNode) (rest : List Nat)
    (hwf : wfAt false ms = true) :
    latch (freshOf (CompNode.compRec ms)) (ser (CompNode.compRec ms) ++ rest)
      = (CompNode.compRec ms, rest) :=
  latch_freshOf_ser (CompNode.compRec ms) true rest hwf

/-- Witness for C2: a record with a 2-byte primitive, a nested record
holding a 1-byte primitive, a fixed array of two 2-byte primitives, and a
fixed array of two single-member records. -/
theorem c2_serialize_roundtrip_witness :
    wfAt false
        (CompNode.mcons (.prim [7, 8])
          (.mcons (.compRec (.mcons (.prim [5]) .mnil))
            (.mcons (.arrPrim 2 [[1, 2], [3, 4]])
              (.mcons (.arrComp (.mcons (.compRec (.mcons (.prim [9]) .mnil))
                (.mcons (.compRec (.mcons (.prim [6]) .mnil)) .mnil))) .mnil)))) = true
    ∧ latch
        (freshOf (CompNode.compRec
          (CompNode.mcons (.prim [7, 8])
            (.mcons (.compRec (.mcons (.prim [5]) .mnil))
              (.mcons (.arrPrim 2 [[1, 2], [3, 4]])
                (.mcons (.arrComp (.mcons (.compRec (.mcons (.prim [9]) .mnil))
                  (.mcons (.compRec (.mcons (.prim [6]) .mnil)) .mnil))) .mnil))))))
        (ser (CompNode.compRec
          (CompNode.mcons (.prim [7, 8])
            (.mcons (.compRec (.mcons (.prim [5]) .mnil))
              (.mcons (.arrPrim 2 [[1, 2], [3, 4]])
                (.mcons (.arrComp (.mcons (.compRec (.mcons (.prim [9]) .mnil))
                  (.mcons (.compRec (.mcons (.prim [6]) .mnil)) .mnil))) .mnil))))) ++ [])
        = (CompNode.compRec
          (CompNode.mcons (.prim [7, 8])
            (.mcons (.compRec (.mcons (.prim [5]) .mnil))
              (.mcons (.arrPrim 2 [[1, 2], [3, 4]])
                (.mcons (.arrComp (.mcons (.compRec (.mcons (.prim [9]) .mnil))
                  (.mcons (.compRec (.mcons (.prim [6]) .mnil)) .mnil))) .mnil)))), []) :=
  ⟨by decide, c2_serialize_roundtrip _ [] (by decide)⟩

end CompNode

/-! ## On-disk compound description (`CPH5CompType::getCompType`,
`CPH5CompType::getTotalMemorySize`, cph5comptype.h)

A registered member is abstracted by its name and its `getSize()`; the
generated `H5::CompType` by its total byte size and its inserted member
list of `(name, byte offset)` pairs, in insertion order. -/

/-- First loop of `getCompType`: sum the children's sizes. -/
def getCompTypeSize (children : List (String × Nat)) : Nat :=
  children.foldl (fun acc c => acc + c.2) 0

/-- Second loop of `getCompType`: `insertMember(name, size, type)` with the
running offset accumulator `size`, then `size += getSize()`. -/
def insertMembers : List (String × Nat) → Nat → List (String × Nat)
  | [], _ => []
  | c :: tl, off => (c.1, off) :: insertMembers tl (off + c.2)

/-- `getCompType()`: the `H5::CompType` built over the registered children
in declaration order — total size from the first loop, members inserted
at the running-offset positions by the second loop. -/
def getCompType (children : List (String × Nat)) : Nat × List (String × Nat) :=
  (getCompTypeSize children, insertMembers children 0)

/-- `getTotalMemorySize()`: zero if there are no children, otherwise the
sum of the children's `getSize()` values. -/
def getTotalMemorySize (children : List (String × Nat)) : Nat :=
  if children.length > 0 then children.foldl (fun acc c => acc + c.2) 0 else 0

theorem foldl_add_snd (l : List (String × Nat)) :
    ∀ a : Nat, l.foldl (fun acc c => acc + c.2) a = a + (l.map Prod.snd).sum := by
  induction l with
  | nil => intro a; simp
  | cons c tl ih =>
    intro a
    rw [List.foldl_cons, ih (a + c.2), List.map_cons, List.sum_cons]
    ring

theorem getCompTypeSize_eq_sum (children : List (String × Nat)) :
    getCompTypeSize children = (children.map Prod.snd).sum := by
  unfold getCompTypeSize
  rw [foldl_add_snd children 0]
  exact Nat.zero_add _

theorem insertMembers_names (children : List (String × Nat)) (off : Nat) :
    (insertMembers children off).map Prod.fst = children.map Prod.fst := by
  induction children generalizing off with
  | nil => rfl
  | cons c tl ih => simp [insertMembers, ih]

theorem insertMembers_offsets (children : List (String × Nat)) (off : Nat) :
    ∀ i, i < children.length →
      ((insertMembers children off).getD i ("", 0)).2
        = off + (((children.take i).map Prod.snd).sum) := by
  induction children generalizing off with
  | nil => intro i hi; simp at hi
  | cons c tl ih =>
    intro i hi
    cases i with
    | zero => simp [insertMembers]
    | succ i =>
      rw [List.length_cons] at hi
      have := ih (off + c.2) i (by omega)
      simp only [insertMembers, List.getD_cons_succ, List.take_succ_cons,
        List.map_cons, List.sum_cons]
      rw [this]
      ring

/-- **C5.** For members registered in declaration order, `getCompType`
emits the members in exactly that order (no re-sorting), the description's
total byte size is the sum of the member sizes, the offset of member `i`
is the prefix sum of the sizes of members `0..i`, and
`getTotalMemorySize` equals that same sum of sizes. -/
theorem c5_layout_prefix_sums (children : List (String × Nat)) :
    ((getCompType children).2.map Prod.fst = children.map Prod.fst)
    ∧ ((getCompType children).1 = (children.map Prod.snd).sum)
    ∧ (∀ i, i < children.length →
        ((getCompType children).2.getD i ("", 0)).2
          = ((children.take i).map Prod.snd).sum)
    ∧ (getTotalMemorySize children = (children.map Prod.snd).sum) := by
  refine ⟨insertMembers_names children 0, getCompTypeSize_eq_sum children, ?_, ?_⟩
  · intro i hi
    have h := insertMembers_offsets children 0 i hi
    show ((insertMembers children 0).getD i ("", 0)).2
      = ((children.take i).map Prod.snd).sum
    rw [h, Nat.zero_add]
  · unfold getTotalMemorySize
    by_cases h : children.length > 0
    · rw [if_pos h, foldl_add_snd children 0, Nat.zero_add]
    · rw [if_neg h]
      have : children = [] := List.eq_nil_of_length_eq_zero (by omega)
      subst this
      rfl

/-! ## Dataset extension (`CPH5Dataset::extendIR` /
`extendOnceAndWrite`, cph5dataset.h)

`extendIR` recurses up to the root-order dataset object and then operates
on the root's tracked dimension array `mDims`.  We model the root-level
body: the state is the tracked dims (`hsize_t` values), the `mDimsSet`
flag and whether the `H5::DataSet` handle exists (`mpDataSet != 0`).  The
storage-engine call `mpDataSet->extend(newDims)` may fail by throwing; the
`engineOk` parameter selects that outcome.  The `memcpy` of `newDims`
into `mDims` is reached only after the engine call returns normally. -/

/-- Root-level dataset state relevant to `extend`. -/
structure DSExtState where
  mDims : List Nat
  mDimsSet : Bool
  isOpen : Bool
deriving Repr, DecidableEq

/-- An engine `extend` call carrying the requested new dimensions. -/
inductive ExtendEvent where
  | extendCall (newDims : List Nat)
deriving Repr, DecidableEq

/-- `extendIR(dimsBelow, numTimes)` at the root level: returns unchanged
when the dims were never set or the dataset handle is null (no engine
call); otherwise computes `newDims` (`hsize_t` addition, mod 2^64), issues
the engine extend, and copies `newDims` into `mDims` only if the engine
call returned (when it throws, the exception propagates before the
`memcpy` and the tracked dims stay unchanged). -/
def extendIR (ds : DSExtState) (dimsBelow numTimes : Nat) (engineOk : Bool) :
    DSExtState × Option ExtendEvent :=
  if ¬ ds.mDimsSet then (ds, none)
  else if ds.isOpen then
    let newDims := ds.mDims.set dimsBelow
      ((ds.mDims.getD dimsBelow 0 + numTimes) % 2 ^ 64)
    if engineOk then ({ ds with mDims := newDims }, some (.extendCall newDims))
    else (ds, some (.extendCall newDims))
  else (ds, none)

/-- `extend(numTimes)` on the root object: `extendIR(0, numTimes)`. -/
def extend (ds : DSExtState) (numTimes : Nat) (engineOk : Bool) :
    DSExtState × Option ExtendEvent :=
  extendIR ds 0 numTimes engineOk

/-- `getDimSize()` at the root: `mDims[0]` when the dims are set, `0`
otherwise. -/
def getDimSize (ds : DSExtState) : Nat :=
  if ds.mDimsSet then ds.mDims.getD 0 0 else 0

/-- `extendOnceAndWrite(src)`: `extendIR(0, 1)`, then (when the extend
call did not throw) a write through `operator[](getDimSize() - 1)`.  The
third component is the row index handed to `operator[]`. -/
def extendOnceAndWrite (ds : DSExtState) (engineOk : Bool) :
    DSExtState × Option ExtendEvent × Option Int :=
  let r := extendIR ds 0 1 engineOk
  if engineOk ∨ r.2.isNone then
    (r.1, r.2, some ((getDimSize r.1 : Int) - 1))
  else (r.1, r.2, none)

/-- **C6.** The tracked first-dimension size is updated only after the
storage-engine extend call has been issued and returned successfully: if
the handle is not open or the dims were never set, `extendIR` returns
with the tracked size unchanged (and no engine call); if the engine call
throws, the tracked size is also unchanged; on success the size grows by
`numTimes`.  The extend step of `extendOnceAndWrite` is exactly
`extendIR(0, 1)`. -/
theorem c6_extend_counter_after_engine (ds : DSExtState) (n : Nat) (ok : Bool) :
    ((¬ ds.mDimsSet ∨ ¬ ds.isOpen) → extendIR ds 0 n ok = (ds, none))
    ∧ (ds.mDimsSet → ds.isOpen → ok = true →
        (extendIR ds 0 n ok).1.mDims
          = ds.mDims.set 0 ((ds.mDims.getD 0 0 + n) % 2 ^ 64)
        ∧ (extendIR ds 0 n ok).2
          = some (.extendCall (ds.mDims.set 0 ((ds.mDims.getD 0 0 + n) % 2 ^ 64))))
    ∧ (ok = false → (extendIR ds 0 n ok).1 = ds)
    ∧ ((extendOnceAndWrite ds ok).1 = (extendIR ds 0 1 ok).1
        ∧ (extendOnceAndWrite ds ok).2.1 = (extendIR ds 0 1 ok).2) := by
  refine ⟨?_, ?_, ?_, ?_⟩
  · intro h
    unfold extendIR
    rcases h with h | h
    · rw [if_pos h]
    · by_cases hset : ds.mDimsSet
      · rw [if_neg (by simpa using hset), if_neg h]
      · rw [if_pos hset]
  · intro hset hopen hok
    unfold extendIR
    rw [if_neg (by simpa using hset), if_pos hopen, hok, if_pos rfl]
    exact ⟨rfl, rfl⟩
  · intro hok
    subst hok
    unfold extendIR
    by_cases hset : ds.mDimsSet
    · by_cases hopen : ds.isOpen
      · rw [if_neg (by simpa using hset), if_pos hopen, if_neg (by simp)]
      · rw [if_neg (by simpa using hset), if_neg hopen]
    · rw [if_pos hset]
  · unfold extendOnceAndWrite
    by_cases h : ok = true ∨ (extendIR ds 0 1 ok).2.isNone
    · rw [if_pos (by simpa using h)]
      exact ⟨rfl, rfl⟩
    · rw [if_neg (by simpa using h)]
      exact ⟨rfl, rfl⟩

/-- Witness for C6: a closed, open-and-set dataset state with first
dimension 3 extended by 2, engine call succeeding. -/
theorem c6_extend_counter_after_engine_witness :
    (extendIR ⟨[3, 4], true, true⟩ 0 2 true).1.mDims = [5, 4]
    ∧ (extendIR ⟨[3, 4], false, true⟩ 0 2 true) = (⟨[3, 4], false, true⟩, none) := by
  have h := c6_extend_counter_after_engine ⟨[3, 4], true, true⟩ 2 true
  have h2 := c6_extend_counter_after_engine ⟨[3, 4], false, true⟩ 2 true
  refine ⟨?_, h2.1 (Or.inl (by decide))⟩
  rw [(h.2.1 rfl rfl rfl).1]
  decide

/-! ## Fixed array-of-primitive member writes
(`CPH5CompMemberArrayCommon<T, inh>::write`, cph5comptype.h)

State of a non-derived `CPH5CompMemberArrayCommon`: the local buffer
`pMT` (`N` values of the element type, modeled opaquely as `Int`), the
`mReadDone` latch flag, whether the parent chain provides a live
`CPH5IOFacility` (`mpParent != 0 && getIOFacility() != 0`), and the
array's current contents in the file.  Engine writes carry the full
buffer handed to the facility. -/

/-- In-memory and on-file state of a fixed array-of-primitive member. -/
structure PrimArray where
  pMT : List Int
  mReadDone : Bool
  ioBound : Bool
  file : List Int
deriving Repr, DecidableEq

namespace PrimArray

/-- `read(T *buf)` with `buf = pMT`: when the IO facility is available,
reads the whole array from the file into `pMT` and sets `mReadDone`. -/
def readIntoLocal (a : PrimArray) : PrimArray :=
  if a.ioBound then { a with pMT := a.file, mReadDone := true } else a

/-- `write(const T *buf)`: `memcpy(pMT, buf, sizeof(T)*N)`, then — when
the IO facility is available — a single engine write of the full
`N`-element buffer (through the one-member compound type).  Returns the
engine writes issued (each event carries the full buffer written). -/
def writeFull (a : PrimArray) (buf : List Int) : PrimArray × List (List Int) :=
  let a' := { a with pMT := buf }
  if a'.ioBound then ({ a' with file := buf }, [buf]) else (a', [])

/-- `write(T val, int index)`: re-reads the array into `pMT` first when it
was never latched, overwrites element `index`, and calls the whole-array
`write(pMT)`. -/
def writeAt (a : PrimArray) (v : Int) (i : Nat) : PrimArray × List (List Int) :=
  let a1 := if ¬ a.mReadDone then a.readIntoLocal else a
  let a2 := { a1 with pMT := a1.pMT.set i v }
  a2.writeFull a2.pMT

/-- **C7.** For a fixed `N`-element array-of-primitive member bound to a
live IO facility and an in-bounds index `i`, the single-element
`write(v, i)` materializes exactly one engine write of the full
`N`-element buffer; afterwards the stored array equals the prior stored
contents with element `i` replaced by `v` — element `i` reads `v`, every
other index is unchanged. -/
theorem c7_element_write_full_array (a : PrimArray) (v : Int) (i : Nat)
    (hio : a.ioBound = true) (hi : i < a.file.length)
    (hlatch : a.mReadDone = true → a.pMT = a.file) :
    (a.writeAt v i).1.file = a.file.set i v
    ∧ (a.writeAt v i).2 = [a.file.set i v]
    ∧ (a.writeAt v i).1.file.length = a.file.length
    ∧ (a.writeAt v i).1.file.getD i 0 = v
    ∧ (∀ j, j < a.file.length → j ≠ i →
        (a.writeAt v i).1.file.getD j 0 = a.file.getD j 0) := by
  have hbuf : (if ¬ a.mReadDone then a.readIntoLocal else a).pMT = a.file := by
    by_cases hrd : a.mReadDone
    · rw [if_neg (by simpa using hrd)]
      exact hlatch hrd
    · rw [if_pos (by simpa using hrd)]
      unfold readIntoLocal
      rw [if_pos hio]
  have hio1 : (if ¬ a.mReadDone then a.readIntoLocal else a).ioBound = true := by
    by_cases hrd : a.mReadDone
    · rw [if_neg (by simpa using hrd)]; exact hio
    · rw [if_pos (by simpa using hrd)]
      unfold readIntoLocal
      rw [if_pos hio]
      exact hio
  have hres : a.writeAt v i = ({ (if ¬ a.mReadDone then a.readIntoLocal else a) with
      pMT := a.file.set i v, file := a.file.set i v }, [a.file.set i v]) := by
    unfold writeAt writeFull
    simp only [hbuf]
    rw [if_pos hio1]
  rw [hres]
  refine ⟨rfl, rfl, by simp, ?_, ?_⟩
  · show (a.file.set i v).getD i 0 = v
    rw [List.getD_eq_getElem?_getD, List.getElem?_set_self (by omega)]
    rfl
  · intro j hj hne
    show (a.file.set i v).getD j 0 = a.file.getD j 0
    rw [List.getD_eq_getElem?_getD, List.getElem?_set_ne (by omega), ← List.getD_eq_getElem?_getD]

/-- Witness for C7 on a concrete 3-element array. -/
theorem c7_element_write_full_array_witness :
    ((⟨[0, 0, 0], false, true, [10, 20, 30]⟩ : PrimArray).writeAt 99 1).1.file
      = [10, 99, 30]
    ∧ ((⟨[0, 0, 0], false, true, [10, 20, 30]⟩ : PrimArray).writeAt 99 1).2
      = [[10, 99, 30]] := by
  have h := c7_element_write_full_array ⟨[0, 0, 0], false, true, [10, 20, 30]⟩
    99 1 rfl (by decide) (by intro hc; exact absurd hc (by decide))
  exact ⟨by rw [h.1]; decide, by rw [h.2.1]; decide⟩

end PrimArray

/-! ## Fixed array-of-records member indexing
(`CPH5CompMemberArrayCommon<T, IS_DERIVED>`, cph5comptype.h)

The constructor allocates `pmT = new T[nElements+1]` — one spare record
past the end — and calls `setArrayParent(this)` on the first `nElements`
records only.  `operator[]` returns `pmT[index]` for an in-bounds index
and the spare `pmT[nElements]` otherwise.  A record obtained this way has
its members' writes routed through `getIOFacility()` (null for array
elements) or, failing that, through `mpArrParent->signalChange()`; the
spare has neither, so writes to it stay in local memory. -/

/-- A record object inside (or spare to) an array-of-records member: the
flags that decide where a member write is routed, plus its collapsed
local storage. -/
structure RecObj where
  localVal : Int
  hasFacility : Bool
  hasArrParent : Bool
deriving Repr, DecidableEq

/-- `CPH5CompMemberBaseThru<T,I>::operator=` on a member of the record:
latch locally, then write through the IO facility when present, else
signal the parent array when present (which materializes a file write),
else nothing.  The boolean reports whether anything was propagated toward
the file. -/
def RecObj.assignMember (r : RecObj) (v : Int) : RecObj × Bool :=
  let r' := { r with localVal := v }
  if r'.hasFacility then (r', true)
  else if r'.hasArrParent then (r', true)
  else (r', false)

/-- State of a `CPH5CompMemberArrayCommon<T, IS_DERIVED>`: the element
count and the `nElements+1`-long allocation `pmT`. -/
structure CompArray where
  nElements : Nat
  pmT : List RecObj
deriving Repr, DecidableEq

/-- The constructor: `pmT = new T[nElements+1]`, then
`for (i = 0; i < nElements; ++i) pmT[i].setArrayParent(this)` — the spare
`pmT[nElements]` keeps a null array parent, and no element ever gets an
IO facility of its own. -/
def CompArray.mk0 (n : Nat) : CompArray :=
  { nElements := n
    pmT := List.replicate n ⟨0, false, true⟩ ++ [⟨0, false, false⟩] }

/-- `operator[](int index)`: the index into `pmT` of the returned
reference — `index` itself when `0 <= index < mNElements`, the spare slot
`mNElements` otherwise.  (The possible `readAll()` re-latch that
`operator[]` performs first mutates only element contents, never which
reference is returned.) -/
def CompArray.refIndex (a : CompArray) (i : Int) : Nat :=
  if 0 ≤ i ∧ i < a.nElements then i.toNat else a.nElements

/-- **C10.** Indexing a fixed `N`-element array-of-records member with
*any* index stays inside the `N+1`-record allocation made at
construction; every out-of-range index yields the dedicated spare record
`pmT[N]`, and member writes through that spare are never propagated
toward the file (it has neither an IO facility nor an array parent). -/
theorem c10_oob_index_spare (n : Nat) (i : Int) (v : Int) :
    (CompArray.mk0 n).refIndex i < ((CompArray.mk0 n).pmT).length
    ∧ (¬ (0 ≤ i ∧ i < n) → (CompArray.mk0 n).refIndex i = n)
    ∧ ((((CompArray.mk0 n).pmT).getD n ⟨0, true, true⟩).assignMember v).2 = false := by
  refine ⟨?_, ?_, ?_⟩
  · unfold CompArray.refIndex CompArray.mk0
    simp only [List.length_append, List.length_replicate, List.length_cons,
      List.length_nil]
    by_cases h : 0 ≤ i ∧ i < ((n : Nat) : Int)
    · rw [if_pos h]
      omega
    · rw [if_neg h]
      omega
  · intro h
    unfold CompArray.refIndex CompArray.mk0
    rw [if_neg (by exact_mod_cast h)]
  · have hget : ((CompArray.mk0 n).pmT).getD n ⟨0, true, true⟩ = ⟨0, false, false⟩ := by
      unfold CompArray.mk0
      rw [List.getD_eq_getElem?_getD, List.getElem?_append_right (by simp),
        List.length_replicate]
      simp
    rw [hget]
    rfl

/-- Witness for C10 at `N = 3`, index `5`. -/
theorem c10_oob_index_spare_witness :
    (CompArray.mk0 3).refIndex 5 < ((CompArray.mk0 3).pmT).length
    ∧ (CompArray.mk0 3).refIndex 5 = 3
    ∧ ((((CompArray.mk0 3).pmT).getD 3 ⟨0, true, true⟩).assignMember 42).2 = false := by
  have h := c10_oob_index_spare 3 5 42
  exact ⟨h.1, h.2.1 (by decide), h.2.2⟩

/-! ## Whole-dataset assignment (`CPH5Dataset::operator=`,
cph5dataset.h)

Root-level dataset state relevant to `operator=`: tracked current and
maximum dims (`hsize_t`), the `mDimsSet` / open flags, the element type
size, and whether the object is root-level (`mpDimParent == 0`).
`getDims`/`getMaxDims` return `std::vector<int>`, narrowing each
`hsize_t`; the comparison `mMaxDims[i] >= otherMaxDims[i]` promotes the
`int` back to `hsize_t`. -/

/-- Root-level dataset state for `operator=`. -/
structure RootDS where
  rank : Nat
  mDims : List Nat
  mMaxDims : List Nat
  mDimsSet : Bool
  isOpen : Bool
  typeSize : Nat
  isRootLevel : Bool
deriving Repr, DecidableEq

namespace RootDS

/-- `getDims()`: `getDimSizeIR(i)` for each dimension — `mDims[i]` as
`int` when the dims are set, `0` otherwise. -/
def getDimsI (d : RootDS) : List Int :=
  if d.mDimsSet then d.mDims.map hsizeToInt else List.replicate d.rank 0

/-- `getMaxDims()`: `getMaxDimSizeIR(i)` for each dimension. -/
def getMaxDimsI (d : RootDS) : List Int :=
  if d.mDimsSet then d.mMaxDims.map hsizeToInt else List.replicate d.rank 0

/-- `getTotalNumElements()`: `dims[0] * … * dims[rank-1]` over `getDims()`
(only meaningful for `rank >= 1`, where the list is non-empty). -/
def totalNumElements (d : RootDS) : Int :=
  d.getDimsI.prod

/-- `resizeToR(dims)`: per rank level, `extend(dims[j] - dim)` when
`dims[j] > dim`; each `extendIR` updates the root's tracked dims only
when the dims are set and the handle is open (engine extend assumed to
succeed), so the net effect is a pointwise max with the target. -/
def resizeToR (d : RootDS) (target : List Int) : RootDS :=
  if d.isOpen ∧ d.mDimsSet then
    let newDims := (d.mDims.zip target).map
      fun ct => if ct.2 > hsizeToInt ct.1 then intToHsize ct.2 else ct.1
    { d with mDims := newDims }
  else d

/-- The `dimsMatch` accumulation loop of `operator=`:
`dimsMatch &&= (mMaxDims[i] >= otherMaxDims[i])` over all `nDims`
dimensions, the right-hand side being the source's `getMaxDims()` `int`
value promoted back to `hsize_t` by the comparison. -/
def dimsMatchB (dst src : RootDS) : Bool :=
  (List.range dst.rank).all
    fun i => intToHsize (src.getMaxDimsI.getD i 0) ≤ dst.mMaxDims.getD i 0

/-- `operator=(rhs)`: refuse (`return`, nothing transferred) when this is
not the root-level object, when the `dimsMatch` loop fails, or when this
dataset already holds more elements than the source; otherwise resize up
to the source's current dims first if it holds fewer, and transfer
`rhs.getTotalNumElements() * mType.getSize()` bytes via
`rhs.readRaw`/`writeRaw`.  Returns the updated destination and
`some byteCount` when the copy was performed, `none` when refused. -/
def assignFrom (dst src : RootDS) : RootDS × Option Nat :=
  if ¬ dst.isRootLevel then (dst, none)
  else if ¬ dimsMatchB dst src then (dst, none)
  else if dst.totalNumElements < src.totalNumElements then
    (dst.resizeToR src.getDimsI,
      some ((src.totalNumElements * (dst.typeSize : Int)).toNat))
  else if dst.totalNumElements > src.totalNumElements then (dst, none)
  else (dst, some ((src.totalNumElements * (dst.typeSize : Int)).toNat))

end RootDS

theorem getD_mem_of_lt {l : List Nat} {i : Nat} (hi : i < l.length) :
    l.getD i 0 ∈ l := by
  rw [List.getD_eq_getElem?_getD, List.getElem?_eq_getElem hi]
  exact List.getElem_mem hi

theorem getD_map_hsize (l : List Nat) (i : Nat) (hi : i < l.length) :
    (l.map hsizeToInt).getD i 0 = hsizeToInt (l.getD i 0) := by
  rw [List.getD_eq_getElem?_getD, List.getD_eq_getElem?_getD,
    List.getElem?_map, List.getElem?_eq_getElem hi]
  rfl

theorem prod_map_hsizeToInt (ds : List Nat) (h : ∀ x ∈ ds, x < 2 ^ 31) :
    (ds.map hsizeToInt).prod = (ds.prod : Int) := by
  induction ds with
  | nil => simp
  | cons a tl ih =>
    rw [List.map_cons, List.prod_cons, List.prod_cons,
      hsizeToInt_of_small (h a (by simp)),
      ih fun x hx => h x (List.mem_cons_of_mem _ hx)]
    push_cast
    ring

/-- **C8 (amended).** Whole-dataset `operator=` refuses with no bytes
transferred exactly in these cases: the destination is not the
root-level object; some destination *maximum* extent is smaller than the
source's corresponding *maximum* extent (which in particular covers every
case where a destination maximum extent is smaller than a source current
extent, the situation named by the claim); or the destination currently
holds more elements than the source.  In all remaining cases it
transfers the source's full contents — `src element count * element
size` bytes — in one read/write pair. -/
theorem c8_amended_assignment (dst src : RootDS)
    (hlms : src.mMaxDims.length = dst.rank)
    (hset : src.mDimsSet = true)
    (hsm1 : ∀ x ∈ src.mDims, x < 2 ^ 31) (hsm2 : ∀ x ∈ src.mMaxDims, x < 2 ^ 31)
    (hcur : ∀ i, i < dst.rank → src.mDims.getD i 0 ≤ src.mMaxDims.getD i 0) :
    ((∃ i, i < dst.rank ∧ dst.mMaxDims.getD i 0 < src.mDims.getD i 0) →
        dst.assignFrom src = (dst, none))
    ∧ (¬ dst.isRootLevel = true → dst.assignFrom src = (dst, none))
    ∧ ((∃ i, i < dst.rank ∧ dst.mMaxDims.getD i 0 < src.mMaxDims.getD i 0) →
        dst.assignFrom src = (dst, none))
    ∧ (dst.isRootLevel = true →
        (∀ i, i < dst.rank → src.mMaxDims.getD i 0 ≤ dst.mMaxDims.getD i 0) →
        (dst.totalNumElements > src.totalNumElements →
            dst.assignFrom src = (dst, none))
        ∧ (dst.totalNumElements ≤ src.totalNumElements →
            (dst.assignFrom src).2 = some (src.mDims.prod * dst.typeSize))) := by
  have hOM : src.getMaxDimsI = src.mMaxDims.map hsizeToInt := by
    unfold RootDS.getMaxDimsI
    rw [if_pos hset]
  have hcond : ∀ i, i < dst.rank →
      intToHsize (src.getMaxDimsI.getD i 0) = src.mMaxDims.getD i 0 := by
    intro i hi
    rw [hOM, getD_map_hsize _ i (by omega),
      intToHsize_hsizeToInt (hsm2 _ (getD_mem_of_lt (by omega)))]
  have hmatch : RootDS.dimsMatchB dst src = true ↔
      (∀ i, i < dst.rank → src.mMaxDims.getD i 0 ≤ dst.mMaxDims.getD i 0) := by
    unfold RootDS.dimsMatchB
    rw [List.all_eq_true]
    constructor
    · intro h i hi
      have := h i (List.mem_range.mpr hi)
      rw [decide_eq_true_eq, hcond i hi] at this
      exact this
    · intro h i hi
      have hi' := List.mem_range.mp hi
      rw [decide_eq_true_eq, hcond i hi']
      exact h i hi'
  have hbytes : (src.totalNumElements * (dst.typeSize : Int)).toNat
      = src.mDims.prod * dst.typeSize := by
    unfold RootDS.totalNumElements RootDS.getDimsI
    rw [if_pos hset, prod_map_hsizeToInt _ hsm1]
    rw [show ((src.mDims.prod : Int) * (dst.typeSize : Int))
        = ((src.mDims.prod * dst.typeSize : Nat) : Int) by push_cast; ring]
    exact Int.toNat_natCast _
  have hrefuse_nonroot : ¬ dst.isRootLevel = true →
      dst.assignFrom src = (dst, none) := by
    intro h
    unfold RootDS.assignFrom
    rw [if_pos h]
  have hrefuse_dm : (∃ i, i < dst.rank ∧
      dst.mMaxDims.getD i 0 < src.mMaxDims.getD i 0) →
      dst.assignFrom src = (dst, none) := by
    intro ⟨i, hi, hlt⟩
    by_cases hroot : dst.isRootLevel = true
    · unfold RootDS.assignFrom
      rw [if_neg (by simpa using hroot)]
      have hdm : ¬ RootDS.dimsMatchB dst src = true := by
        rw [hmatch]
        intro hall
        exact absurd (hall i hi) (by omega)
      rw [if_pos (by simpa using hdm)]
    · exact hrefuse_nonroot hroot
  refine ⟨?_, hrefuse_nonroot, hrefuse_dm, ?_⟩
  · intro ⟨i, hi, hlt⟩
    exact hrefuse_dm ⟨i, hi, by have := hcur i hi; omega⟩
  · intro hroot hall
    have hdm : RootDS.dimsMatchB dst src = true := hmatch.mpr hall
    constructor
    · intro hgt
      unfold RootDS.assignFrom
      rw [if_neg (by simpa using hroot), if_neg (by simpa using hdm),
        if_neg (by omega), if_pos hgt]
    · intro hle
      unfold RootDS.assignFrom
      rw [if_neg (by simpa using hroot), if_neg (by simpa using hdm)]
      by_cases hltt : dst.totalNumElements < src.totalNumElements
      · rw [if_pos hltt]
        exact congrArg some hbytes
      · rw [if_neg hltt, if_neg (by omega)]
        exact congrArg some hbytes

/-- Witness for the amended C8: concrete equal-shape copy (rank 1, dims
`[2]` both sides) transfers `2 * 4` bytes. -/
theorem c8_amended_assignment_witness :
    (RootDS.assignFrom ⟨1, [2], [4], true, true, 4, true⟩
        ⟨1, [2], [4], true, true, 4, true⟩).2 = some 8 := by
  have h := c8_amended_assignment ⟨1, [2], [4], true, true, 4, true⟩
    ⟨1, [2], [4], true, true, 4, true⟩ rfl rfl
    (by decide) (by decide) (by intro i hi; interval_cases i; decide)
  have := (h.2.2.2 rfl (by intro i hi; interval_cases i; decide)).2 (by decide)
  simpa using this

/-- **C8 (counterexample).** Two root-level rank-1 datasets, both open
with dims set: destination `dims [2]`, `maxDims [4]`; source `dims [2]`,
`maxDims [5]`.  The destination's maximum extents are *not* smaller than
the source's current extents (4 ≥ 2), so by the claim the assignment is
not refused and must copy — but the code compares against the source's
*maximum* extents (4 < 5) and refuses: no bytes are transferred. -/
theorem c8_counterexample :
    (RootDS.assignFrom ⟨1, [2], [4], true, true, 4, true⟩
        ⟨1, [2], [5], true, true, 4, true⟩).2 = none
    ∧ (∀ i, i < 1 →
        (([2] : List Nat).getD i 0 : Nat) ≤ (([4] : List Nat).getD i 0 : Nat)) := by
  constructor
  · decide
  · intro i hi
    interval_cases i
    decide

/-! ## Schema reflection of compound types
(`CPH5Dynamic::recurseComptype`, cph5dynamic.h)

An on-disk member type is classified by `getMemberClass`: integer, float,
compound, array, or something else (e.g. a string type).  For an array
member the code reads the rank and, only when it is 1, the element count
and element class.  `memberAdderIf<T>` succeeds when sign and
`sizeof(T)` match, so the eight-way integer chain succeeds exactly for
byte widths 1/2/4/8 and the float chain for widths 4/8.  C++ exceptions
(`throw "…"`), which abort the whole reconstruction, are modeled by
`Except.error`.  Member-type lists reuse the first-order
`mnil`/`mcons` spine trick. -/

/-- An on-disk (stored) datatype as seen through the introspection calls
used by `recurseComptype`.  `strT` stands for any member class outside
integer/float/compound/array (e.g. `H5T_STRING`).  For an array only the
rank, the first dimension's element count and the base type are ever
inspected. -/
inductive H5T where
  | intT (size : Nat) (signed : Bool)
  | floatT (size : Nat)
  | compT (members : H5T)
  | arrT (ndims : Nat) (nElements : Nat) (base : H5T)
  | strT
  | mnil
  | mcons (name : String) (t : H5T) (tl : H5T)
deriving Repr, DecidableEq

/-- The reconstructed members registered via `registerExternalMember`, in
registration order (`bnil`/`bcons` spine). -/
inductive Built where
  | primI (name : String) (size : Nat) (signed : Bool)
  | primF (name : String) (size : Nat)
  | nested (name : String) (sub : Built)
  | arrPrimI (name : String) (size : Nat) (signed : Bool) (n : Nat)
  | arrPrimF (name : String) (size : Nat) (n : Nat)
  | arrComp (name : String) (n : Nat) (elemSub : Built)
  | bnil
  | bcons (b : Built) (tl : Built)
deriving Repr, DecidableEq

/-- `recurseComptype(h5type, fill)` over the member list of a stored
compound type: builds the list of members registered on `fill`, or the
thrown string.  Mirrors the `for (i …) { switch on getMemberClass(i) }`
loop:

  * compound member: recurse, then register a nested member;
  * integer member: the `memberAdderIf` chain, `throw "BAD FAIL"` when no
    width matches;
  * float member: likewise;
  * array member: when the rank is 1, dispatch on the element class
    (compound: recurse per element; integer/float: the `arrayAddIf`
    chains with their throws); a rank-1 array of any *other* element
    class falls into a `//TODO error here?` branch that does nothing —
    the member is silently dropped; an array of rank ≠ 1 likewise hits
    `//TODO error here?` and is silently dropped;
  * any other member class: `throw "BAD UNKNOWN TYPE"`.

A malformed member-type node (a bare list spine in member position) is
treated as an unknown class. -/
def recurseMembers : H5T → Except String Built
  | .mnil => .ok .bnil
  | .mcons name t tl =>
    match t with
    | .compT ms => do
      let sub ← recurseMembers ms
      let rest ← recurseMembers tl
      .ok (.bcons (.nested name sub) rest)
    | .intT size signed =>
      if size = 1 ∨ size = 2 ∨ size = 4 ∨ size = 8 then do
        let rest ← recurseMembers tl
        .ok (.bcons (.primI name size signed) rest)
      else .error "BAD FAIL"
    | .floatT size =>
      if size = 4 ∨ size = 8 then do
        let rest ← recurseMembers tl
        .ok (.bcons (.primF name size) rest)
      else .error "BAD FAIL"
    | .arrT ndims n base =>
      if ndims = 1 then
        match base with
        | .compT ms =>
          if n = 0 then do
            let rest ← recurseMembers tl
            .ok (.bcons (.arrComp name 0 .bnil) rest)
          else do
            let sub ← recurseMembers ms
            let rest ← recurseMembers tl
            .ok (.bcons (.arrComp name n sub) rest)
        | .intT size signed =>
          if size = 1 ∨ size = 2 ∨ size = 4 ∨ size = 8 then do
            let rest ← recurseMembers tl
            .ok (.bcons (.arrPrimI name size signed n) rest)
          else .error "BAD UNKNOWN ARRAY TYPE"
        | .floatT size =>
          if size = 4 ∨ size = 8 then do
            let rest ← recurseMembers tl
            .ok (.bcons (.arrPrimF name size n) rest)
          else .error "BAD UNKNOWN ARRAY FLOAT TYPE"
        | _ => recurseMembers tl
      else recurseMembers tl
    | _ => .error "BAD UNKNOWN TYPE"
  | _ => .error "BAD UNKNOWN TYPE"

/-- **C9 (counterexample).** A stored compound type whose first member is
a rank-2 array of 4-byte signed integers (a higher-rank nested array —
exactly the spec's example of an unsupported on-disk class) followed by a
supported `int32` member.  `recurseComptype` does *not* fail fast: it
succeeds, returning a member list in which the array member has been
silently dropped. -/
theorem c9_counterexample :
    recurseMembers (.mcons "a" (.arrT 2 4 (.intT 4 true))
        (.mcons "b" (.intT 4 true) .mnil))
      = .ok (.bcons (.primI "b" 4 true) .bnil) := by
  rfl

/-- **C9 (amended).** The reflector fails fast — aborting reconstruction
with a thrown descriptive failure — for unsupported *non-array* member
classes (e.g. a string member) and for integer/float members of
unmatched byte width; but an array member of rank other than 1 (e.g. a
higher-rank nested array), or a rank-1 array whose element class is
itself unsupported (another array, or a string), is *silently skipped*:
reconstruction continues as if the member were absent. -/
theorem c9_amended_partial_fail_fast (name : String) (rest : H5T) :
    (recurseMembers (.mcons name .strT rest) = .error "BAD UNKNOWN TYPE")
    ∧ (∀ sz sg, ¬ (sz = 1 ∨ sz = 2 ∨ sz = 4 ∨ sz = 8) →
        recurseMembers (.mcons name (.intT sz sg) rest) = .error "BAD FAIL")
    ∧ (∀ sz, ¬ (sz = 4 ∨ sz = 8) →
        recurseMembers (.mcons name (.floatT sz) rest) = .error "BAD FAIL")
    ∧ (∀ nd n base, nd ≠ 1 →
        recurseMembers (.mcons name (.arrT nd n base) rest)
          = recurseMembers rest)
    ∧ (∀ n nd' n' b',
        recurseMembers (.mcons name (.arrT 1 n (.arrT nd' n' b')) rest)
          = recurseMembers rest)
    ∧ (∀ n, recurseMembers (.mcons name (.arrT 1 n .strT) rest)
        = recurseMembers rest) := by
  refine ⟨rfl, ?_, ?_, ?_, ?_, ?_⟩
  · intro sz sg h
    simp only [recurseMembers]
    rw [if_neg h]
  · intro sz h
    simp only [recurseMembers]
    rw [if_neg h]
  · intro nd n base h
    rw [recurseMembers.eq_def]
    dsimp only
    rw [if_neg h]
  · intro n nd' n' b'
    simp only [recurseMembers]
    rw [if_pos trivial]
  · intro n
    simp only [recurseMembers]
    rw [if_pos trivial]

/-- Witness for the amended C9 at concrete member types. -/
theorem c9_amended_partial_fail_fast_witness :
    (recurseMembers (.mcons "s" .strT .mnil) = .error "BAD UNKNOWN TYPE")
    ∧ (recurseMembers (.mcons "i" (.intT 3 true) .mnil) = .error "BAD FAIL")
    ∧ (recurseMembers (.mcons "m" (.arrT 2 4 (.intT 4 true)) .mnil)
        = recurseMembers (.mnil : H5T)) := by
  refine ⟨(c9_amended_partial_fail_fast "s" H5T.mnil).1, ?_, ?_⟩
  · exact (c9_amended_partial_fail_fast "i" H5T.mnil).2.1 3 true (by decide)
  · exact (c9_amended_partial_fail_fast "m" H5T.mnil).2.2.2.1 2 4 (.intT 4 true)
      (by decide)

/-- Witness for C5 at a concrete three-member record. -/
theorem c5_layout_prefix_sums_witness :
    ((getCompType [("a", 4), ("b", 8), ("c", 2)]).2.map Prod.fst = ["a", "b", "c"])
    ∧ ((getCompType [("a", 4), ("b", 8), ("c", 2)]).1 = 14)
    ∧ (((getCompType [("a", 4), ("b", 8), ("c", 2)]).2.getD 2 ("", 0)).2 = 12)
    ∧ (getTotalMemorySize [("a", 4), ("b", 8), ("c", 2)] = 14) := by
  have h := c5_layout_prefix_sums [("a", 4), ("b", 8), ("c", 2)]
  refine ⟨h.1, h.2.1, ?_, h.2.2.2⟩
  exact h.2.2.1 2 (by decide)

end CPH5
